import Mathlib

/-!
Verification of the DevCamper list query translator (`advancedResults`).

Shallow embedding of the `advancedResults` middleware (and the identical inline
logic of `getBootcamps`): the query-string-to-filter translator with
select/sort/pagination handling.

The JS source performs, for an Express request `req`:

```js
const reqQuery = { ...req.query };
["select","sort","page","limit"].forEach(p => delete reqQuery[p]);
let queryStr = JSON.stringify(reqQuery);
queryStr = queryStr.replace(/\b(gt|gte|lt|lte|in)\b/g, m => `$${m}`);
query = model.find(JSON.parse(queryStr));
...
const page = parseInt(req.query.page, 10) || 1;
const limit = parseInt(req.query.limit, 10) || 10;
const startIndex = (page - 1) * limit;
const endIndex = page * limit;
const total = await model.countDocuments();
...
```

Strings are modelled as `List Char`.  The query values delivered by the `qs`
parser are strings, arrays, or nested objects, so the JSON value type below has
exactly those constructors (`qs` never produces numbers, booleans or null).
-/

namespace DevCamper

/-! ## Word characters and the operator-token rewrite

`String.prototype.replace` with `/\b(gt|gte|lt|lte|in)\b/g` replaces every
maximal run of word characters (`[A-Za-z0-9_]`, the chars where `\b` flips)
that is exactly one of the five tokens.  A run that merely contains a token
(`"gte"` inside `"gten"`) is not touched, because `\b` requires a non-word
character (or the ends of the string) on both sides, and the alternation
backtracks to the longest alternative that ends at a boundary. -/

/-- JS regex word character (`\w` / the characters relevant for `\b`). -/
def isWordChar (c : Char) : Bool := c.isAlphanum || c == '_'

/-- The operator tokens of the rewrite: `gt`, `gte`, `lt`, `lte`, `in`. -/
def isTok (r : List Char) : Bool :=
  r == ['g', 't'] || r == ['g', 't', 'e'] || r == ['l', 't'] ||
  r == ['l', 't', 'e'] || r == ['i', 'n']

/-- Tag a word run: prefix `$` when it is an operator token (`` m => `$${m}` ``). -/
def tagTok (r : List Char) : List Char := if isTok r then '$' :: r else r

/-- Worker for the rewrite: `run` is the word-character run read so far; when
the run ends (at a non-word character or the end of the input) it is emitted,
`$`-tagged exactly when it is an operator token. -/
def replTokGo (run : List Char) : List Char → List Char
  | [] => tagTok run
  | c :: cs =>
    if isWordChar c then replTokGo (run ++ [c]) cs
    else tagTok run ++ c :: replTokGo [] cs

/-- The call `queryStr.replace(/\b(gt|gte|lt|lte|in)\b/g, m => `$${m}`)`: every maximal
word-character run equal to a token gets a `$` prefix. -/
def replaceTokens (s : List Char) : List Char := replTokGo [] s

/-! ## JSON values as produced by `qs` -/

mutual
/-- A JSON value as found in `req.query` (string / array / object). -/
inductive Jv where
  | str (s : List Char)
  | arr (elems : JvList)
  | obj (fields : JvObj)
  deriving DecidableEq

/-- Array elements. -/
inductive JvList where
  | nil
  | cons (v : Jv) (tl : JvList)
  deriving DecidableEq

/-- Object fields, in insertion order (JS object keys are unique). -/
inductive JvObj where
  | nil
  | cons (k : List Char) (v : Jv) (tl : JvObj)
  deriving DecidableEq
end

/-! ## `JSON.stringify` -/

/-- Lowercase hex digit. -/
def hexDigit (n : Nat) : Char := if n < 10 then Char.ofNat (48 + n) else Char.ofNat (87 + n)

/-- Escaping applied by `JSON.stringify` to one character of a string literal. -/
def escChar (c : Char) : List Char :=
  if c == '"' then ['\\', '"']
  else if c == '\\' then ['\\', '\\']
  else if c == '\n' then ['\\', 'n']
  else if c == '\r' then ['\\', 'r']
  else if c == '\t' then ['\\', 't']
  else if c.toNat == 8 then ['\\', 'b']
  else if c.toNat == 12 then ['\\', 'f']
  else if c.toNat < 32 then ['\\', 'u', '0', '0', hexDigit (c.toNat / 16), hexDigit (c.toNat % 16)]
  else [c]

/-- Escape the body of a JSON string literal. -/
def escape : List Char → List Char
  | [] => []
  | c :: cs => escChar c ++ escape cs

mutual
/-- Serialization `JSON.stringify` of a value. -/
def stringifyV : Jv → List Char
  | .str s => '"' :: (escape s ++ ['"'])
  | .arr a => '[' :: (stringifyL a ++ [']'])
  | .obj o => '{' :: (stringifyO o ++ ['}'])

/-- Comma-separated serialization of array elements. -/
def stringifyL : JvList → List Char
  | .nil => []
  | .cons v .nil => stringifyV v
  | .cons v (.cons w tl) => stringifyV v ++ ',' :: stringifyL (.cons w tl)

/-- Comma-separated serialization of object fields. -/
def stringifyO : JvObj → List Char
  | .nil => []
  | .cons k v .nil => '"' :: (escape k ++ '"' :: ':' :: stringifyV v)
  | .cons k v (.cons k' w tl) =>
      '"' :: (escape k ++ '"' :: ':' :: stringifyV v) ++ ',' :: stringifyO (.cons k' w tl)
end

/-! ## `JSON.parse` -/

/-- Value of a hex digit character, as accepted in `\uXXXX`. -/
def hexVal (c : Char) : Option Nat :=
  if 48 ≤ c.toNat ∧ c.toNat ≤ 57 then some (c.toNat - 48)
  else if 97 ≤ c.toNat ∧ c.toNat ≤ 102 then some (c.toNat - 87)
  else if 65 ≤ c.toNat ∧ c.toNat ≤ 70 then some (c.toNat - 55)
  else none

/-- Single-character escapes accepted by JSON (`\" \\ \/ \b \f \n \r \t`). -/
def unescSimple (e : Char) : Option Char :=
  if e == '"' then some '"'
  else if e == '\\' then some '\\'
  else if e == '/' then some '/'
  else if e == 'b' then some (Char.ofNat 8)
  else if e == 'f' then some (Char.ofNat 12)
  else if e == 'n' then some '\n'
  else if e == 'r' then some '\r'
  else if e == 't' then some '\t'
  else none

/-- Parse the body of a JSON string literal (already past the opening quote);
returns the decoded characters and the input after the closing quote. -/
def parseLit : List Char → Option (List Char × List Char)
  | [] => none
  | c :: rest =>
    if c == '"' then some ([], rest)
    else if c == '\\' then
      match rest with
      | [] => none
      | e :: r =>
        if e == 'u' then
          match r with
          | h1 :: h2 :: h3 :: h4 :: r' =>
            match hexVal h1, hexVal h2, hexVal h3, hexVal h4 with
            | some a, some b, some x, some d =>
              (parseLit r').map (fun p => (Char.ofNat (4096 * a + 256 * b + 16 * x + d) :: p.1, p.2))
            | _, _, _, _ => none
          | _ => none
        else
          match unescSimple e with
          | some d => (parseLit r).map (fun p => (d :: p.1, p.2))
          | none => none
    else if c.toNat < 32 then none
    else (parseLit rest).map (fun p => (c :: p.1, p.2))

mutual
/-- Model of `JSON.parse` on a value (fuel-indexed recursive descent; the inputs this
model is applied to are machine-serialized, hence contain no whitespace). -/
def parseVal : Nat → List Char → Option (Jv × List Char)
  | 0, _ => none
  | _ + 1, '"' :: rest => (parseLit rest).map (fun p => (.str p.1, p.2))
  | f + 1, '[' :: rest => (parseElems f rest).map (fun p => (.arr p.1, p.2))
  | f + 1, '{' :: rest => (parseFields f rest).map (fun p => (.obj p.1, p.2))
  | _ + 1, _ => none

/-- Parse array elements up to and including the closing `]`. -/
def parseElems : Nat → List Char → Option (JvList × List Char)
  | 0, _ => none
  | _ + 1, ']' :: rest => some (.nil, rest)
  | f + 1, s =>
    match parseVal f s with
    | none => none
    | some (v, rest) =>
      match rest with
      | ',' :: r2 => (parseElems f r2).map (fun p => (.cons v p.1, p.2))
      | ']' :: r2 => some (.cons v .nil, r2)
      | _ => none

/-- Parse object fields up to and including the closing `}`. -/
def parseFields : Nat → List Char → Option (JvObj × List Char)
  | 0, _ => none
  | _ + 1, '}' :: rest => some (.nil, rest)
  | f + 1, '"' :: rest =>
    match parseLit rest with
    | none => none
    | some (k, r1) =>
      match r1 with
      | ':' :: r2 =>
        match parseVal f r2 with
        | none => none
        | some (v, r3) =>
          match r3 with
          | ',' :: r4 => (parseFields f r4).map (fun p => (.cons k v p.1, p.2))
          | '}' :: r4 => some (.cons k v .nil, r4)
          | _ => none
      | _ => none
  | _ + 1, _ => none
end

/-- Model of `JSON.parse` on a whole input: `none` models a thrown `SyntaxError`. -/
def parseJson (s : List Char) : Option Jv :=
  match parseVal (s.length + 1) s with
  | some (v, []) => some v
  | _ => none

/-! ## JS primitives used by the translator -/

/-- JS truthiness of a `req.query` value (`""` is falsy; arrays and objects
are truthy). -/
def jvTruthy : Jv → Bool
  | .str s => !s.isEmpty
  | .arr _ => true
  | .obj _ => true

mutual
/-- JS `ToString` coercion, as applied by `parseInt` to its argument
(arrays join their coerced elements with `,`; plain objects give
`"[object Object]"`). -/
def jvCoerceStr : Jv → List Char
  | .str s => s
  | .arr a => jvCoerceL a
  | .obj _ => ['[', 'o', 'b', 'j', 'e', 'c', 't', ' ', 'O', 'b', 'j', 'e', 'c', 't', ']']

/-- Coercion `Array.prototype.toString`: elements joined with `,`. -/
def jvCoerceL : JvList → List Char
  | .nil => []
  | .cons v .nil => jvCoerceStr v
  | .cons v (.cons w tl) => jvCoerceStr v ++ ',' :: jvCoerceL (.cons w tl)
end

/-- JS whitespace skipped by `parseInt` (space, tab, LF, VT, FF, CR, NBSP). -/
def isJsSpace (c : Char) : Bool :=
  c == ' ' || c.toNat == 9 || c.toNat == 10 || c.toNat == 11 ||
  c.toNat == 12 || c.toNat == 13 || c.toNat == 160

/-- Decimal value of a digit string. -/
def digitsVal (ds : List Char) : Nat :=
  ds.foldl (fun acc c => 10 * acc + (c.toNat - 48)) 0

/-- Model of `parseInt(s, 10)`: skip whitespace, optional sign, then the maximal run of
leading decimal digits; `none` models `NaN` (no digits). -/
def parseIntJs (s : List Char) : Option Int :=
  let t := s.dropWhile isJsSpace
  let (neg, u) : Bool × List Char :=
    match t with
    | '-' :: u => (true, u)
    | '+' :: u => (false, u)
    | u => (false, u)
  let ds := u.takeWhile Char.isDigit
  if ds.isEmpty then none
  else some (if neg then -(digitsVal ds : Int) else (digitsVal ds : Int))

/-! ## `req.query` as a JS object -/

/-- Property read `o[k]` on a query object (`none` = `undefined`). -/
def jvLookup : JvObj → List Char → Option Jv
  | .nil, _ => none
  | .cons k' v tl, k => if k' = k then some v else jvLookup tl k

/-- Deletion `delete o[k]`. -/
def jvDelete : JvObj → List Char → JvObj
  | .nil, _ => .nil
  | .cons k' v tl, k => if k' = k then jvDelete tl k else .cons k' v (jvDelete tl k)

/-- The spread `{ ...req.query }`: a shallow copy — a fresh object with the same fields.
The source then deletes the reserved keys on this copy only; `req.query`
itself is never written to. -/
def jsCopy (o : JvObj) : JvObj := o

def selectKey : List Char := ['s', 'e', 'l', 'e', 'c', 't']
def sortKey : List Char := ['s', 'o', 'r', 't']
def pageKey : List Char := ['p', 'a', 'g', 'e']
def limitKey : List Char := ['l', 'i', 'm', 'i', 't']

/-- The loop `removeFields.forEach(param => delete reqQuery[param])` applied to the
spread copy of `req.query`. -/
def removeReserved (o : JvObj) : JvObj :=
  [selectKey, sortKey, pageKey, limitKey].foldl jvDelete (jsCopy o)

/-- The mapping `req.query` as observed by the caller after the middleware ran: the source
deletes keys only on the spread copy `reqQuery`, and contains no write to
`req.query`, so the caller's mapping is the untouched original. -/
def reqQueryAfterCall (rq : JvObj) : JvObj := rq

/-! ## The translator pipeline -/

/-- The composite `JSON.parse(JSON.stringify(q).replace(/\b(gt|gte|lt|lte|in)\b/g, ...))`:
serialization, operator-token rewrite, deserialization. -/
def rewriteFilter (q : JvObj) : Option Jv :=
  parseJson (replaceTokens (stringifyV (.obj q)))

/-- The expression `str.split(",").join(" ")`: every comma becomes a space. -/
def commasToSpaces (s : List Char) : List Char :=
  s.map (fun c => if c = ',' then ' ' else c)

/-- Default sort field: `"-createdAt"`. -/
def defaultSort : List Char := ['-', 'c', 'r', 'e', 'a', 't', 'e', 'd', 'A', 't']

/-- The call `parseInt(req.query[k], 10)` (`none` = `NaN`; an absent key coerces to
`"undefined"` which also parses to `NaN`). -/
def parseIntParam (rq : JvObj) (k : List Char) : Option Int :=
  (jvLookup rq k).bind (fun v => parseIntJs (jvCoerceStr v))

/-- The JS expression `x || d` for the result of `parseInt`: `NaN` and `0` (and `-0`) are falsy. -/
def jsOrDefault (x : Option Int) (d : Int) : Int :=
  match x with
  | none => d
  | some n => if n = 0 then d else n

/-- The line `const page = parseInt(req.query.page, 10) || 1`. -/
def effPage (rq : JvObj) : Int := jsOrDefault (parseIntParam rq pageKey) 1

/-- The line `const limit = parseInt(req.query.limit, 10) || 10`. -/
def effLimit (rq : JvObj) : Int := jsOrDefault (parseIntParam rq limitKey) 10

/-- The query execution plan handed to the external store: filter predicate,
projection, sort keys, skip/limit window, optional relation to populate. -/
structure QueryPlan where
  filter : Jv
  select : Option (List Char)
  sort : List Char
  skip : Int
  limit : Int
  populate : Option (List Char)
  deriving DecidableEq

/-- The `select` handling: `if (req.query.select) { fields =
req.query.select.split(",").join(" ") }`.  Calling `.split` on a truthy
non-string value throws a `TypeError` (outer `none`). -/
def selectOf (rq : JvObj) : Option (Option (List Char)) :=
  match jvLookup rq selectKey with
  | none => some none
  | some v =>
    if jvTruthy v then
      match v with
      | .str s => some (some (commasToSpaces s))
      | _ => none
    else some none

/-- The `sort` handling: comma-split/space-join when present and truthy,
otherwise the default `-createdAt`; a truthy non-string throws (`none`). -/
def sortOf (rq : JvObj) : Option (List Char) :=
  match jvLookup rq sortKey with
  | none => some defaultSort
  | some v =>
    if jvTruthy v then
      match v with
      | .str s => some (commasToSpaces s)
      | _ => none
    else some defaultSort

/-- Build the query plan from `req.query` (everything up to query execution);
`none` models an uncaught exception in the middleware. -/
def planOf (pop : Option (List Char)) (rq : JvObj) : Option QueryPlan :=
  match rewriteFilter (removeReserved rq), selectOf rq, sortOf rq with
  | some filter, some sel, some srt =>
    some { filter := filter, select := sel, sort := srt,
           skip := (effPage rq - 1) * effLimit rq, limit := effLimit rq,
           populate := pop }
  | _, _, _ => none

/-- A `next`/`prev` pagination link: `{ page, limit }`. -/
structure PageLink where
  page : Int
  limit : Int
  deriving DecidableEq

/-- The pagination metadata object (fields added only under the guards). -/
structure Pagination where
  next : Option PageLink
  prev : Option PageLink
  deriving DecidableEq

/-- The result envelope `res.advancedResults`. -/
structure Envelope (Doc : Type) where
  success : Bool
  count : Nat
  pagination : Pagination
  data : List Doc
  deriving DecidableEq

/-- The external document store: the full collection (for
`countDocuments()`) and an opaque query engine executing a plan. -/
structure Model (Doc : Type) where
  docs : List Doc
  exec : QueryPlan → List Doc

/-- Externally observable effects of one invocation. -/
inductive Effect where
  | countDocs
  | execQuery (plan : QueryPlan)
  deriving DecidableEq

/-- The pagination block: `next` added iff `endIndex < total`, `prev` added
iff `startIndex > 0`, each carrying `page ± 1` and the current `limit`. -/
def paginationOf (page limit : Int) (total : Nat) : Pagination :=
  let startIndex := (page - 1) * limit
  let endIndex := page * limit
  { next := if endIndex < (total : Int) then some ⟨page + 1, limit⟩ else none
    prev := if startIndex > 0 then some ⟨page - 1, limit⟩ else none }

/-- The whole middleware body: build the plan, count, execute, and assemble
`res.advancedResults`; also returns the issued store operations in order.
`none` models an uncaught exception before any query is issued. -/
def advancedResults (pop : Option (List Char)) (rq : JvObj) (m : Model Doc) :
    Option (Envelope Doc × List Effect) :=
  match planOf pop rq with
  | none => none
  | some plan =>
    let total := m.docs.length
    let results := m.exec plan
    some ({ success := true
            count := results.length
            pagination := paginationOf (effPage rq) (effLimit rq) total
            data := results },
          [Effect.countDocs, Effect.execQuery plan])

/-! ## Structural views of the rewrite, for stating C1/C7 -/

/-- No `\b`-delimited occurrence of an operator token in the string: the regex
rewrite leaves it unchanged. -/
def noTokStr (s : List Char) : Bool := replaceTokens s == s

mutual
/-- No operator token occurs (as a `\b`-delimited word) in the serialized form
of any key or string value. -/
def noTokV : Jv → Bool
  | .str s => noTokStr (escape s)
  | .arr a => noTokL a
  | .obj o => noTokO o

def noTokL : JvList → Bool
  | .nil => true
  | .cons v tl => noTokV v && noTokL tl

def noTokO : JvObj → Bool
  | .nil => true
  | .cons k v tl => noTokStr (escape k) && noTokV v && noTokO tl
end

/-- The operator tokens as a list. -/
def tokList : List (List Char) :=
  [['g', 't'], ['g', 't', 'e'], ['l', 't'], ['l', 't', 'e'], ['i', 'n']]

/-- Whether `t` occurs at the start of `s`. -/
def startsWith : List Char → List Char → Bool
  | [], _ => true
  | _ :: _, [] => false
  | a :: t, b :: s => a == b && startsWith t s

/-- Whether `t` occurs as a contiguous substring of `s`. -/
def occursIn (t : List Char) : List Char → Bool
  | [] => startsWith t []
  | b :: s => startsWith t (b :: s) || occursIn t s

/-- No operator token occurs as a substring of the (raw) string. -/
def noTokSubStr (s : List Char) : Bool := !(tokList.any (fun t => occursIn t s))

mutual
/-- No operator token occurs as a substring of any key or string value. -/
def noTokSubV : Jv → Bool
  | .str s => noTokSubStr s
  | .arr a => noTokSubL a
  | .obj o => noTokSubO o

def noTokSubL : JvList → Bool
  | .nil => true
  | .cons v tl => noTokSubV v && noTokSubL tl

def noTokSubO : JvObj → Bool
  | .nil => true
  | .cons k v tl => noTokSubStr k && noTokSubV v && noTokSubO tl
end

/-- Characters that `JSON.stringify` leaves unescaped. -/
def plainChar (c : Char) : Bool := decide (32 ≤ c.toNat) && c != '"' && c != '\\'

/-- A string needing no JSON escaping. -/
def plainStr (s : List Char) : Bool := s.all plainChar

mutual
/-- All keys and string values need no JSON escaping. -/
def plainV : Jv → Bool
  | .str s => plainStr s
  | .arr a => plainL a
  | .obj o => plainO o

def plainL : JvList → Bool
  | .nil => true
  | .cons v tl => plainV v && plainL tl

def plainO : JvObj → Bool
  | .nil => true
  | .cons k v tl => plainStr k && plainV v && plainO tl
end

mutual
/-- Apply a string transformation to every key and string value. -/
def mapStrV (f : List Char → List Char) : Jv → Jv
  | .str s => .str (f s)
  | .arr a => .arr (mapStrL f a)
  | .obj o => .obj (mapStrO f o)

def mapStrL (f : List Char → List Char) : JvList → JvList
  | .nil => .nil
  | .cons v tl => .cons (mapStrV f v) (mapStrL f tl)

def mapStrO (f : List Char → List Char) : JvObj → JvObj
  | .nil => .nil
  | .cons k v tl => .cons (f k) (mapStrV f v) (mapStrO f tl)
end

mutual
/-- Structural size, bounding the fuel the parser needs. -/
def sizeV : Jv → Nat
  | .str _ => 0
  | .arr a => sizeL a + 1
  | .obj o => sizeO o + 1

def sizeL : JvList → Nat
  | .nil => 0
  | .cons v tl => sizeV v + sizeL tl + 1

def sizeO : JvObj → Nat
  | .nil => 0
  | .cons _ v tl => sizeV v + sizeO tl + 1
end

/-! ## The rewrite distributes over non-word boundaries -/

theorem rt_nil : replaceTokens [] = [] := rfl

theorem replTokGo_nonword (run : List Char) (c : Char) (b : List Char)
    (h : isWordChar c = false) :
    replTokGo run (c :: b) = tagTok run ++ c :: replTokGo [] b := by
  simp [replTokGo, h]

theorem replTokGo_word (run : List Char) (c : Char) (b : List Char)
    (h : isWordChar c = true) :
    replTokGo run (c :: b) = replTokGo (run ++ [c]) b := by
  simp [replTokGo, h]

theorem rt_nonword_cons (c : Char) (b : List Char) (h : isWordChar c = false) :
    replaceTokens (c :: b) = c :: replaceTokens b := by
  unfold replaceTokens
  rw [replTokGo_nonword [] c b h]
  rfl

theorem replTokGo_append_nonword (c : Char) (h : isWordChar c = false) :
    ∀ (a run b : List Char),
      replTokGo run (a ++ c :: b) = replTokGo run a ++ c :: replTokGo [] b := by
  intro a
  induction a with
  | nil =>
    intro run b
    simp [replTokGo, h]
  | cons d a' ih =>
    intro run b
    by_cases hd : isWordChar d
    · simp only [List.cons_append, replTokGo, hd, if_true]
      exact ih (run ++ [d]) b
    · have hd' : isWordChar d = false := by simpa using hd
      rw [List.cons_append, replTokGo_nonword run d _ hd',
        replTokGo_nonword run d a' hd', ih [] b]
      simp [List.append_assoc]

theorem rt_append_nonword (a : List Char) (c : Char) (b : List Char)
    (h : isWordChar c = false) :
    replaceTokens (a ++ c :: b) = replaceTokens a ++ c :: replaceTokens b :=
  replTokGo_append_nonword c h a [] b

theorem replTokGo_allword : ∀ (w run : List Char), w.all isWordChar = true →
    replTokGo run w = tagTok (run ++ w)
  | [], run, _ => by simp [replTokGo]
  | d :: w', run, h => by
    rw [List.all_cons, Bool.and_eq_true] at h
    obtain ⟨hd, hw⟩ := h
    simp only [replTokGo, hd, if_true]
    rw [replTokGo_allword w' (run ++ [d]) hw]
    simp

theorem rt_allword (w : List Char) (h : w.all isWordChar = true) :
    replaceTokens w = tagTok w := by
  unfold replaceTokens
  rw [replTokGo_allword w [] h]
  simp

theorem tagTok_all (p : Char → Bool) (hd : p '$' = true) (run : List Char)
    (hrun : run.all p = true) : (tagTok run).all p = true := by
  unfold tagTok
  split
  · rw [List.all_cons]
    simp [hd, hrun]
  · exact hrun

theorem replTokGo_all (p : Char → Bool) (hd : p '$' = true) :
    ∀ (s run : List Char), run.all p = true → s.all p = true →
      (replTokGo run s).all p = true
  | [], run, hrun, _ => by
    simp only [replTokGo]
    exact tagTok_all p hd run hrun
  | c :: cs, run, hrun, hs => by
    rw [List.all_cons, Bool.and_eq_true] at hs
    obtain ⟨hc, hcs⟩ := hs
    by_cases hw : isWordChar c
    · simp only [replTokGo, hw, if_true]
      exact replTokGo_all p hd cs (run ++ [c])
        (by rw [List.all_append]; simp [hrun, hc]) hcs
    · have hw' : isWordChar c = false := by simpa using hw
      rw [replTokGo_nonword run c cs hw', List.all_append, List.all_cons]
      simp [tagTok_all p hd run hrun, hc, replTokGo_all p hd cs [] rfl hcs]

theorem rt_all (p : Char → Bool) (hd : p '$' = true) (s : List Char)
    (hs : s.all p = true) : (replaceTokens s).all p = true :=
  replTokGo_all p hd s [] (by simp) hs

/-! ## Escaping -/

theorem escape_append (a b : List Char) : escape (a ++ b) = escape a ++ escape b := by
  induction a with
  | nil => rfl
  | cons c cs ih => simp [escape, ih]

theorem escChar_plain (c : Char) (h : plainChar c = true) : escChar c = [c] := by
  simp only [plainChar, Bool.and_eq_true, bne_iff_ne, ne_eq, decide_eq_true_eq] at h
  obtain ⟨⟨h32, hq⟩, hb⟩ := h
  have hn : ¬(c = '\n') := fun hc => by subst hc; exact absurd h32 (by decide)
  have hr : ¬(c = '\r') := fun hc => by subst hc; exact absurd h32 (by decide)
  have ht : ¬(c = '\t') := fun hc => by subst hc; exact absurd h32 (by decide)
  have h8 : ¬(c.toNat = 8) := by omega
  have h12 : ¬(c.toNat = 12) := by omega
  have hlt : ¬(c.toNat < 32) := by omega
  simp [escChar, hq, hb, hn, hr, ht, h8, h12, hlt]

theorem escape_plain (s : List Char) (h : plainStr s = true) : escape s = s := by
  induction s with
  | nil => rfl
  | cons c cs ih =>
    simp only [plainStr, List.all_cons, Bool.and_eq_true] at h
    simp [escape, escChar_plain c h.1, ih (by simp [plainStr, h.2])]

theorem rt_plain (s : List Char) (h : plainStr s = true) :
    plainStr (replaceTokens s) = true :=
  rt_all plainChar (by decide) s h

/-! ## The rewrite on serialized values -/

mutual
/-- A serialized value free of operator tokens is unchanged by the rewrite. -/
theorem noTok_stringifyV : ∀ v : Jv, noTokV v = true →
    replaceTokens (stringifyV v) = stringifyV v
  | .str s, h => by
    have he : replaceTokens (escape s) = escape s := by
      simpa [noTokV, noTokStr] using h
    show replaceTokens ('"' :: (escape s ++ ['"'])) = '"' :: (escape s ++ ['"'])
    rw [rt_nonword_cons '"' _ (by decide),
      rt_append_nonword (escape s) '"' [] (by decide), he, rt_nil]
  | .arr a, h => by
    have ha : noTokL a = true := by simpa [noTokV] using h
    show replaceTokens ('[' :: (stringifyL a ++ [']'])) = '[' :: (stringifyL a ++ [']'])
    rw [rt_nonword_cons '[' _ (by decide),
      rt_append_nonword (stringifyL a) ']' [] (by decide), noTok_stringifyL a ha, rt_nil]
  | .obj o, h => by
    have ho : noTokO o = true := by simpa [noTokV] using h
    show replaceTokens ('{' :: (stringifyO o ++ ['}'])) = '{' :: (stringifyO o ++ ['}'])
    rw [rt_nonword_cons '{' _ (by decide),
      rt_append_nonword (stringifyO o) '}' [] (by decide), noTok_stringifyO o ho, rt_nil]

theorem noTok_stringifyL : ∀ a : JvList, noTokL a = true →
    replaceTokens (stringifyL a) = stringifyL a
  | .nil, _ => rt_nil
  | .cons v .nil, h => by
    have hv : noTokV v = true := by simpa [noTokL] using h
    exact noTok_stringifyV v hv
  | .cons v (.cons w tl), h => by
    rw [noTokL, Bool.and_eq_true] at h
    show replaceTokens (stringifyV v ++ ',' :: stringifyL (.cons w tl)) =
      stringifyV v ++ ',' :: stringifyL (.cons w tl)
    rw [rt_append_nonword _ ',' _ (by decide), noTok_stringifyV v h.1,
      noTok_stringifyL (.cons w tl) h.2]

theorem noTok_stringifyO : ∀ o : JvObj, noTokO o = true →
    replaceTokens (stringifyO o) = stringifyO o
  | .nil, _ => rt_nil
  | .cons k v .nil, h => by
    rw [noTokO, Bool.and_eq_true, Bool.and_eq_true] at h
    obtain ⟨⟨hk, hv⟩, -⟩ := h
    have hek : replaceTokens (escape k) = escape k := by simpa [noTokStr] using hk
    show replaceTokens ('"' :: (escape k ++ '"' :: ':' :: stringifyV v)) =
      '"' :: (escape k ++ '"' :: ':' :: stringifyV v)
    rw [rt_nonword_cons '"' _ (by decide),
      rt_append_nonword (escape k) '"' _ (by decide), hek,
      rt_nonword_cons ':' _ (by decide), noTok_stringifyV v hv]
  | .cons k v (.cons k' w tl), h => by
    rw [noTokO, Bool.and_eq_true, Bool.and_eq_true] at h
    obtain ⟨⟨hk, hv⟩, htl⟩ := h
    have hek : replaceTokens (escape k) = escape k := by simpa [noTokStr] using hk
    show replaceTokens (('"' :: (escape k ++ '"' :: ':' :: stringifyV v)) ++
        ',' :: stringifyO (.cons k' w tl)) =
      ('"' :: (escape k ++ '"' :: ':' :: stringifyV v)) ++ ',' :: stringifyO (.cons k' w tl)
    rw [rt_append_nonword _ ',' _ (by decide), rt_nonword_cons '"' _ (by decide),
      rt_append_nonword (escape k) '"' _ (by decide), hek,
      rt_nonword_cons ':' _ (by decide), noTok_stringifyV v hv,
      noTok_stringifyO (.cons k' w tl) htl]
end

/-! ## Token-free raw strings stay token-free after escaping -/

theorem startsWith_iff : ∀ t s : List Char, startsWith t s = true ↔ t <+: s
  | [], s => by simp [startsWith]
  | a :: t, [] => by simp [startsWith]
  | a :: t, b :: s => by
    simp [startsWith, List.cons_prefix_iff, startsWith_iff t s, and_comm]

theorem occursIn_iff : ∀ t s : List Char, occursIn t s = true ↔ t <:+: s
  | t, [] => by simp [occursIn, startsWith_iff]
  | t, b :: s => by
    simp [occursIn, startsWith_iff, occursIn_iff t s, List.infix_cons_iff]

theorem tagTok_nil : tagTok [] = [] := rfl

theorem isTok_mem (r : List Char) : isTok r = true ↔ r ∈ tokList := by
  simp [isTok, tokList]
  tauto

theorem isTok_head (d : Char) (r : List Char) (h : isTok (d :: r) = true) :
    d = 'g' ∨ d = 'l' ∨ d = 'i' := by
  simp only [isTok, Bool.or_eq_true, beq_iff_eq, List.cons.injEq, or_assoc] at h
  rcases h with ⟨h, -⟩ | ⟨h, -⟩ | ⟨h, -⟩ | ⟨h, -⟩ | ⟨h, -⟩ <;> simp [h]

/-- The invariant of `replTokGo_escape`: the pending word run is either the
raw run itself or starts with an escape-inserted letter, which is never the
first letter of an operator token; either way it is emitted untagged. -/
theorem tagTok_of_inv (pre runR rest : List Char)
    (hpre : pre = [] ∨ ∃ d pre', pre = d :: pre' ∧ d ≠ 'g' ∧ d ≠ 'l' ∧ d ≠ 'i')
    (hyp : ∀ t, isTok t = true → ¬ t <:+: (runR ++ rest)) :
    tagTok (pre ++ runR) = pre ++ runR := by
  unfold tagTok
  split
  · rename_i htok
    rcases hpre with rfl | ⟨d, pre', rfl, hg, hl, hi⟩
    · rw [List.nil_append] at htok
      exact absurd (List.prefix_append runR rest).isInfix (hyp runR htok)
    · rw [List.cons_append] at htok
      rcases isTok_head _ _ htok with h | h | h
      · exact absurd h hg
      · exact absurd h hl
      · exact absurd h hi
  · rfl

theorem isWordChar_hexDigit (n : Nat) (h : n < 16) : isWordChar (hexDigit n) = true := by
  interval_cases n <;> decide

theorem infix_of_tail {t s : List Char} (runR : List Char) (c : Char)
    (h : t <:+: s) : t <:+: (runR ++ c :: s) :=
  h.trans ((List.suffix_cons c s).trans (List.suffix_append runR (c :: s))).isInfix

/-- Word runs of `escape s` are either word runs of `s` or begin with an
escape-inserted letter (`b f n r t u`, hex digits): if no operator token
occurs in the raw string, the rewrite fixes the escaped string. -/
theorem replTokGo_escape : ∀ (s pre runR : List Char),
    (pre = [] ∨ ∃ d pre', pre = d :: pre' ∧ d ≠ 'g' ∧ d ≠ 'l' ∧ d ≠ 'i') →
    (∀ t, isTok t = true → ¬ t <:+: (runR ++ s)) →
    replTokGo (pre ++ runR) (escape s) = pre ++ runR ++ escape s
  | [], pre, runR, hpre, hyp => by
    show replTokGo (pre ++ runR) [] = pre ++ runR ++ []
    rw [List.append_nil]
    exact tagTok_of_inv pre runR [] hpre hyp
  | c :: s', pre, runR, hpre, hyp => by
    have hyp' : ∀ t, isTok t = true → ¬ t <:+: s' := fun t ht hinf =>
      hyp t ht (infix_of_tail runR c hinf)
    have tail0 : replTokGo [] (escape s') = escape s' := by
      have h := replTokGo_escape s' [] [] (Or.inl rfl) (by simpa using hyp')
      simpa using h
    show replTokGo (pre ++ runR) (escChar c ++ escape s') =
      pre ++ runR ++ (escChar c ++ escape s')
    by_cases h1 : c = '"'
    · subst h1
      rw [show escChar '"' = ['\\', '"'] from by decide]
      rw [List.cons_append, List.cons_append, List.nil_append,
        replTokGo_nonword _ _ _ (by decide), tagTok_of_inv pre runR _ hpre hyp,
        replTokGo_nonword _ _ _ (by decide), tail0, tagTok_nil]
      simp
    · by_cases h2 : c = '\\'
      · subst h2
        rw [show escChar '\\' = ['\\', '\\'] from by decide]
        rw [List.cons_append, List.cons_append, List.nil_append,
          replTokGo_nonword _ _ _ (by decide), tagTok_of_inv pre runR _ hpre hyp,
          replTokGo_nonword _ _ _ (by decide), tail0, tagTok_nil]
        simp
      · by_cases h3 : c = '\n'
        · subst h3
          rw [show escChar '\n' = ['\\', 'n'] from by decide]
          rw [List.cons_append, List.cons_append, List.nil_append,
            replTokGo_nonword _ _ _ (by decide), tagTok_of_inv pre runR _ hpre hyp]
          have h := replTokGo_escape s' ['n'] [] (by simp) (by simpa using hyp')
          simp only [List.append_nil] at h
          show _ ++ '\\' :: replTokGo [] ('n' :: escape s') = _
          rw [replTokGo_word _ _ _ (by decide), List.nil_append, h]
          simp
        · by_cases h4 : c = '\r'
          · subst h4
            rw [show escChar '\r' = ['\\', 'r'] from by decide]
            rw [List.cons_append, List.cons_append, List.nil_append,
              replTokGo_nonword _ _ _ (by decide), tagTok_of_inv pre runR _ hpre hyp]
            have h := replTokGo_escape s' ['r'] [] (by simp) (by simpa using hyp')
            simp only [List.append_nil] at h
            show _ ++ '\\' :: replTokGo [] ('r' :: escape s') = _
            rw [replTokGo_word _ _ _ (by decide), List.nil_append, h]
            simp
          · by_cases h5 : c = '\t'
            · subst h5
              rw [show escChar '\t' = ['\\', 't'] from by decide]
              rw [List.cons_append, List.cons_append, List.nil_append,
                replTokGo_nonword _ _ _ (by decide), tagTok_of_inv pre runR _ hpre hyp]
              have h := replTokGo_escape s' ['t'] [] (by simp) (by simpa using hyp')
              simp only [List.append_nil] at h
              show _ ++ '\\' :: replTokGo [] ('t' :: escape s') = _
              rw [replTokGo_word _ _ _ (by decide), List.nil_append, h]
              simp
            · by_cases h6 : c.toNat = 8
              · rw [show escChar c = ['\\', 'b'] from by
                  simp [escChar, h1, h2, h3, h4, h5, h6]]
                rw [List.cons_append, List.cons_append, List.nil_append,
                  replTokGo_nonword _ _ _ (by decide), tagTok_of_inv pre runR _ hpre hyp]
                have h := replTokGo_escape s' ['b'] [] (by simp) (by simpa using hyp')
                simp only [List.append_nil] at h
                show _ ++ '\\' :: replTokGo [] ('b' :: escape s') = _
                rw [replTokGo_word _ _ _ (by decide), List.nil_append, h]
                simp
              · by_cases h7 : c.toNat = 12
                · rw [show escChar c = ['\\', 'f'] from by
                    simp [escChar, h1, h2, h3, h4, h5, h6, h7]]
                  rw [List.cons_append, List.cons_append, List.nil_append,
                    replTokGo_nonword _ _ _ (by decide), tagTok_of_inv pre runR _ hpre hyp]
                  have h := replTokGo_escape s' ['f'] [] (by simp) (by simpa using hyp')
                  simp only [List.append_nil] at h
                  show _ ++ '\\' :: replTokGo [] ('f' :: escape s') = _
                  rw [replTokGo_word _ _ _ (by decide), List.nil_append, h]
                  simp
                · by_cases h8 : c.toNat < 32
                  · have hhi : c.toNat / 16 < 16 := by omega
                    have hlo : c.toNat % 16 < 16 := by omega
                    rw [show escChar c =
                        ['\\', 'u', '0', '0', hexDigit (c.toNat / 16), hexDigit (c.toNat % 16)]
                      from by simp [escChar, h1, h2, h3, h4, h5, h6, h7, h8]]
                    rw [List.cons_append, List.cons_append, List.cons_append,
                      List.cons_append, List.cons_append, List.cons_append, List.nil_append,
                      replTokGo_nonword _ _ _ (by decide), tagTok_of_inv pre runR _ hpre hyp]
                    have h := replTokGo_escape s'
                      ['u', '0', '0', hexDigit (c.toNat / 16), hexDigit (c.toNat % 16)] []
                      (by simp) (by simpa using hyp')
                    simp only [List.append_nil] at h
                    show _ ++ '\\' :: replTokGo []
                      ('u' :: '0' :: '0' :: hexDigit (c.toNat / 16) ::
                        hexDigit (c.toNat % 16) :: escape s') = _
                    rw [replTokGo_word _ _ _ (by decide)]
                    simp only [List.nil_append, List.cons_append, List.singleton_append]
                    rw [replTokGo_word _ _ _ (by decide)]
                    simp only [List.nil_append, List.cons_append, List.singleton_append]
                    rw [replTokGo_word _ _ _ (by decide)]
                    simp only [List.nil_append, List.cons_append, List.singleton_append]
                    rw [replTokGo_word _ _ _ (isWordChar_hexDigit _ hhi)]
                    simp only [List.nil_append, List.cons_append, List.singleton_append]
                    rw [replTokGo_word _ _ _ (isWordChar_hexDigit _ hlo)]
                    simp only [List.nil_append, List.cons_append, List.singleton_append]
                    rw [h]
                    simp
                  · have hplain : escChar c = [c] := by
                      simp [escChar, h1, h2, h3, h4, h5, h6, h7, h8]
                    rw [hplain, List.cons_append, List.nil_append]
                    by_cases hw : isWordChar c
                    · rw [show replTokGo (pre ++ runR) (c :: escape s') =
                          replTokGo (pre ++ runR ++ [c]) (escape s') from by
                        simp [replTokGo, hw]]
                      have h := replTokGo_escape s' pre (runR ++ [c]) hpre (by
                        intro t ht
                        rw [List.append_assoc, List.singleton_append]
                        exact hyp t ht)
                      rw [List.append_assoc pre runR [c], h]
                      simp [List.append_assoc]
                    · rw [replTokGo_nonword _ _ _ (by simpa using hw),
                        tagTok_of_inv pre runR _ hpre hyp, tail0]

/-- If no operator token occurs as a substring of the raw string, the rewrite
leaves its JSON-escaped form unchanged. -/
theorem noTokSub_escape (s : List Char) (h : noTokSubStr s = true) :
    noTokStr (escape s) = true := by
  have hyp : ∀ t, isTok t = true → ¬ t <:+: s := by
    intro t ht hinf
    rw [noTokSubStr, Bool.not_eq_true'] at h
    rw [List.any_eq_false] at h
    exact absurd ((occursIn_iff t s).mpr hinf) (by simp [h t ((isTok_mem t).mp ht)])
  have h2 := replTokGo_escape s [] [] (Or.inl rfl) (by simpa using hyp)
  simp only [List.nil_append, List.append_nil] at h2
  simp [noTokStr, replaceTokens, h2]

mutual
theorem noTokSub_noTokV : ∀ v : Jv, noTokSubV v = true → noTokV v = true
  | .str s, h => noTokSub_escape s h
  | .arr a, h => noTokSub_noTokL a h
  | .obj o, h => noTokSub_noTokO o h

theorem noTokSub_noTokL : ∀ a : JvList, noTokSubL a = true → noTokL a = true
  | .nil, _ => rfl
  | .cons v tl, h => by
    rw [noTokSubL, Bool.and_eq_true] at h
    rw [noTokL, Bool.and_eq_true]
    exact ⟨noTokSub_noTokV v h.1, noTokSub_noTokL tl h.2⟩

theorem noTokSub_noTokO : ∀ o : JvObj, noTokSubO o = true → noTokO o = true
  | .nil, _ => rfl
  | .cons k v tl, h => by
    rw [noTokSubO, Bool.and_eq_true, Bool.and_eq_true] at h
    rw [noTokO, Bool.and_eq_true, Bool.and_eq_true]
    exact ⟨⟨noTokSub_escape k h.1.1, noTokSub_noTokV v h.1.2⟩, noTokSub_noTokO tl h.2⟩
end

mutual
/-- On values needing no JSON escaping, serializing, rewriting, and looking at
the result is the same as rewriting every key and string value. -/
theorem plain_stringifyV : ∀ v : Jv, plainV v = true →
    replaceTokens (stringifyV v) = stringifyV (mapStrV replaceTokens v)
  | .str s, h => by
    have hs : plainStr s = true := by simpa [plainV] using h
    show replaceTokens ('"' :: (escape s ++ ['"'])) =
      '"' :: (escape (replaceTokens s) ++ ['"'])
    rw [escape_plain s hs, escape_plain (replaceTokens s) (rt_plain s hs),
      rt_nonword_cons '"' _ (by decide), rt_append_nonword s '"' [] (by decide), rt_nil]
  | .arr a, h => by
    have ha : plainL a = true := by simpa [plainV] using h
    show replaceTokens ('[' :: (stringifyL a ++ [']'])) =
      '[' :: (stringifyL (mapStrL replaceTokens a) ++ [']'])
    rw [rt_nonword_cons '[' _ (by decide),
      rt_append_nonword (stringifyL a) ']' [] (by decide), plain_stringifyL a ha, rt_nil]
  | .obj o, h => by
    have ho : plainO o = true := by simpa [plainV] using h
    show replaceTokens ('{' :: (stringifyO o ++ ['}'])) =
      '{' :: (stringifyO (mapStrO replaceTokens o) ++ ['}'])
    rw [rt_nonword_cons '{' _ (by decide),
      rt_append_nonword (stringifyO o) '}' [] (by decide), plain_stringifyO o ho, rt_nil]

theorem plain_stringifyL : ∀ a : JvList, plainL a = true →
    replaceTokens (stringifyL a) = stringifyL (mapStrL replaceTokens a)
  | .nil, _ => rt_nil
  | .cons v .nil, h => by
    have hv : plainV v = true := by simpa [plainL] using h
    exact plain_stringifyV v hv
  | .cons v (.cons w tl), h => by
    rw [plainL, Bool.and_eq_true] at h
    show replaceTokens (stringifyV v ++ ',' :: stringifyL (.cons w tl)) =
      stringifyV (mapStrV replaceTokens v) ++
        ',' :: stringifyL (mapStrL replaceTokens (.cons w tl))
    rw [rt_append_nonword _ ',' _ (by decide), plain_stringifyV v h.1,
      plain_stringifyL (.cons w tl) h.2]

theorem plain_stringifyO : ∀ o : JvObj, plainO o = true →
    replaceTokens (stringifyO o) = stringifyO (mapStrO replaceTokens o)
  | .nil, _ => rt_nil
  | .cons k v .nil, h => by
    rw [plainO, Bool.and_eq_true, Bool.and_eq_true] at h
    obtain ⟨⟨hk, hv⟩, -⟩ := h
    show replaceTokens ('"' :: (escape k ++ '"' :: ':' :: stringifyV v)) =
      '"' :: (escape (replaceTokens k) ++ '"' :: ':' :: stringifyV (mapStrV replaceTokens v))
    rw [escape_plain k hk, escape_plain (replaceTokens k) (rt_plain k hk),
      rt_nonword_cons '"' _ (by decide), rt_append_nonword k '"' _ (by decide),
      rt_nonword_cons ':' _ (by decide), plain_stringifyV v hv]
  | .cons k v (.cons k' w tl), h => by
    rw [plainO, Bool.and_eq_true, Bool.and_eq_true] at h
    obtain ⟨⟨hk, hv⟩, htl⟩ := h
    show replaceTokens (('"' :: (escape k ++ '"' :: ':' :: stringifyV v)) ++
        ',' :: stringifyO (.cons k' w tl)) =
      ('"' :: (escape (replaceTokens k) ++ '"' :: ':' ::
          stringifyV (mapStrV replaceTokens v))) ++
        ',' :: stringifyO (mapStrO replaceTokens (.cons k' w tl))
    rw [escape_plain k hk, escape_plain (replaceTokens k) (rt_plain k hk),
      rt_append_nonword _ ',' _ (by decide), rt_nonword_cons '"' _ (by decide),
      rt_append_nonword k '"' _ (by decide), rt_nonword_cons ':' _ (by decide),
      plain_stringifyV v hv, plain_stringifyO (.cons k' w tl) htl]
end

/-! ## The parser inverts the serializer -/

theorem hexVal_hexDigit (n : Nat) (h : n < 16) : hexVal (hexDigit n) = some n := by
  interval_cases n <;> decide

theorem parseLit_escape : ∀ (s rest : List Char),
    parseLit (escape s ++ '"' :: rest) = some (s, rest)
  | [], rest => by
    show parseLit ('"' :: rest) = some ([], rest)
    rw [parseLit.eq_def]
    simp
  | c :: s', rest => by
    have ih := parseLit_escape s' rest
    show parseLit ((escChar c ++ escape s') ++ '"' :: rest) = some (c :: s', rest)
    rw [List.append_assoc]
    by_cases h1 : c = '"'
    · subst h1
      rw [show escChar '"' = ['\\', '"'] from by decide, List.cons_append, List.cons_append,
        List.nil_append, parseLit.eq_def]
      simp [unescSimple, ih]
    · by_cases h2 : c = '\\'
      · subst h2
        rw [show escChar '\\' = ['\\', '\\'] from by decide, List.cons_append,
          List.cons_append, List.nil_append, parseLit.eq_def]
        simp [unescSimple, ih]
      · by_cases h3 : c = '\n'
        · subst h3
          rw [show escChar '\n' = ['\\', 'n'] from by decide, List.cons_append,
            List.cons_append, List.nil_append, parseLit.eq_def]
          simp [unescSimple, ih]
        · by_cases h4 : c = '\r'
          · subst h4
            rw [show escChar '\r' = ['\\', 'r'] from by decide, List.cons_append,
              List.cons_append, List.nil_append, parseLit.eq_def]
            simp [unescSimple, ih]
          · by_cases h5 : c = '\t'
            · subst h5
              rw [show escChar '\t' = ['\\', 't'] from by decide, List.cons_append,
                List.cons_append, List.nil_append, parseLit.eq_def]
              simp [unescSimple, ih]
            · by_cases h6 : c.toNat = 8
              · have hc : Char.ofNat 8 = c := by rw [← h6, Char.ofNat_toNat]
                rw [show escChar c = ['\\', 'b'] from by
                  simp [escChar, h1, h2, h3, h4, h5, h6], List.cons_append,
                  List.cons_append, List.nil_append, parseLit.eq_def]
                simp [unescSimple, ih]
                exact hc
              · by_cases h7 : c.toNat = 12
                · have hc : Char.ofNat 12 = c := by rw [← h7, Char.ofNat_toNat]
                  rw [show escChar c = ['\\', 'f'] from by
                    simp [escChar, h1, h2, h3, h4, h5, h6, h7], List.cons_append,
                    List.cons_append, List.nil_append, parseLit.eq_def]
                  simp [unescSimple, ih]
                  exact hc
                · by_cases h8 : c.toNat < 32
                  · have hhi : c.toNat / 16 < 16 := by omega
                    have hlo : c.toNat % 16 < 16 := by omega
                    have hrec : 4096 * 0 + 256 * 0 + 16 * (c.toNat / 16) + c.toNat % 16 =
                        c.toNat := by omega
                    rw [show escChar c =
                        ['\\', 'u', '0', '0', hexDigit (c.toNat / 16), hexDigit (c.toNat % 16)]
                      from by simp [escChar, h1, h2, h3, h4, h5, h6, h7, h8],
                      List.cons_append, List.cons_append, List.cons_append,
                      List.cons_append, List.cons_append, List.cons_append,
                      List.nil_append, parseLit.eq_def]
                    simp [show hexVal '0' = some 0 from by decide,
                      hexVal_hexDigit _ hhi, hexVal_hexDigit _ hlo, ih]
                    rw [show 16 * (c.toNat / 16) + c.toNat % 16 = c.toNat from by omega,
                      Char.ofNat_toNat]
                  · rw [show escChar c = [c] from by
                      simp [escChar, h1, h2, h3, h4, h5, h6, h7, h8],
                      List.cons_append, List.nil_append, parseLit.eq_def]
                    simp [h1, h2, h8, ih]

theorem parseElems_step (f : Nat) (v : Jv) (t : List Char) :
    parseElems (f + 1) (stringifyV v ++ t) =
      match parseVal f (stringifyV v ++ t) with
      | none => none
      | some (w, rest) =>
        match rest with
        | ',' :: r2 => (parseElems f r2).map (fun p => (JvList.cons w p.1, p.2))
        | ']' :: r2 => some (JvList.cons w JvList.nil, r2)
        | _ => none := by
  cases v <;> rfl

mutual
theorem parseVal_stringify : ∀ (v : Jv) (f : Nat) (rest : List Char), sizeV v < f →
    parseVal f (stringifyV v ++ rest) = some (v, rest)
  | .str s, f, rest, hf => by
    obtain ⟨f', rfl⟩ : ∃ f', f = f' + 1 := ⟨f - 1, by omega⟩
    show parseVal (f' + 1) (('"' :: (escape s ++ ['"'])) ++ rest) = some (.str s, rest)
    rw [List.cons_append, List.append_assoc, List.singleton_append, parseVal.eq_def]
    simp [parseLit_escape s rest]
  | .arr a, f, rest, hf => by
    obtain ⟨f', rfl⟩ : ∃ f', f = f' + 1 := ⟨f - 1, by omega⟩
    have ha : sizeL a < f' := by
      have hs : sizeV (.arr a) = sizeL a + 1 := rfl
      omega
    show parseVal (f' + 1) (('[' :: (stringifyL a ++ [']'])) ++ rest) = some (.arr a, rest)
    rw [List.cons_append, List.append_assoc, List.singleton_append, parseVal.eq_def]
    simp [parseElems_stringify a f' rest ha]
  | .obj o, f, rest, hf => by
    obtain ⟨f', rfl⟩ : ∃ f', f = f' + 1 := ⟨f - 1, by omega⟩
    have ho : sizeO o < f' := by
      have hs : sizeV (.obj o) = sizeO o + 1 := rfl
      omega
    show parseVal (f' + 1) (('{' :: (stringifyO o ++ ['}'])) ++ rest) = some (.obj o, rest)
    rw [List.cons_append, List.append_assoc, List.singleton_append, parseVal.eq_def]
    simp [parseFields_stringify o f' rest ho]

theorem parseElems_stringify : ∀ (a : JvList) (f : Nat) (rest : List Char), sizeL a < f →
    parseElems f (stringifyL a ++ ']' :: rest) = some (a, rest)
  | .nil, f, rest, hf => by
    obtain ⟨f', rfl⟩ : ∃ f', f = f' + 1 := ⟨f - 1, by omega⟩
    show parseElems (f' + 1) ([] ++ ']' :: rest) = some (.nil, rest)
    rw [List.nil_append]
    rfl
  | .cons v .nil, f, rest, hf => by
    obtain ⟨f', rfl⟩ : ∃ f', f = f' + 1 := ⟨f - 1, by omega⟩
    have hv : sizeV v < f' := by
      simp only [sizeL] at hf
      omega
    show parseElems (f' + 1) (stringifyV v ++ ']' :: rest) = some (.cons v .nil, rest)
    rw [parseElems_step f' v (']' :: rest), parseVal_stringify v f' (']' :: rest) hv]
    rfl
  | .cons v (.cons w tl), f, rest, hf => by
    obtain ⟨f', rfl⟩ : ∃ f', f = f' + 1 := ⟨f - 1, by omega⟩
    have hv : sizeV v < f' := by
      simp only [sizeL] at hf
      omega
    have htl : sizeL (.cons w tl) < f' := by
      simp only [sizeL] at hf ⊢
      omega
    show parseElems (f' + 1)
        ((stringifyV v ++ ',' :: stringifyL (.cons w tl)) ++ ']' :: rest) =
      some (.cons v (.cons w tl), rest)
    rw [List.append_assoc, List.cons_append,
      parseElems_step f' v (',' :: (stringifyL (.cons w tl) ++ ']' :: rest)),
      parseVal_stringify v f' _ hv]
    simp [parseElems_stringify (.cons w tl) f' rest htl]

theorem parseFields_stringify : ∀ (o : JvObj) (f : Nat) (rest : List Char), sizeO o < f →
    parseFields f (stringifyO o ++ '}' :: rest) = some (o, rest)
  | .nil, f, rest, hf => by
    obtain ⟨f', rfl⟩ : ∃ f', f = f' + 1 := ⟨f - 1, by omega⟩
    show parseFields (f' + 1) ([] ++ '}' :: rest) = some (.nil, rest)
    rw [List.nil_append]
    rfl
  | .cons k v .nil, f, rest, hf => by
    obtain ⟨f', rfl⟩ : ∃ f', f = f' + 1 := ⟨f - 1, by omega⟩
    have hv : sizeV v < f' := by
      simp only [sizeO] at hf
      omega
    show parseFields (f' + 1)
        (('"' :: (escape k ++ '"' :: ':' :: stringifyV v)) ++ '}' :: rest) =
      some (.cons k v .nil, rest)
    rw [List.cons_append, List.append_assoc, List.cons_append, List.cons_append,
      parseFields.eq_def]
    simp [parseLit_escape k (':' :: (stringifyV v ++ '}' :: rest)),
      parseVal_stringify v f' _ hv]
  | .cons k v (.cons k' w tl), f, rest, hf => by
    obtain ⟨f', rfl⟩ : ∃ f', f = f' + 1 := ⟨f - 1, by omega⟩
    have hv : sizeV v < f' := by
      simp only [sizeO] at hf
      omega
    have htl : sizeO (.cons k' w tl) < f' := by
      simp only [sizeO] at hf ⊢
      omega
    show parseFields (f' + 1)
        ((('"' :: (escape k ++ '"' :: ':' :: stringifyV v)) ++
          ',' :: stringifyO (.cons k' w tl)) ++ '}' :: rest) =
      some (.cons k v (.cons k' w tl), rest)
    rw [List.append_assoc, List.cons_append, List.cons_append, List.append_assoc,
      List.cons_append, List.cons_append, parseFields.eq_def]
    simp [parseLit_escape k
        (':' :: (stringifyV v ++ ',' :: (stringifyO (.cons k' w tl) ++ '}' :: rest))),
      parseVal_stringify v f' _ hv,
      parseFields_stringify (.cons k' w tl) f' rest htl]
end

mutual
theorem sizeV_le_length : ∀ v : Jv, sizeV v ≤ (stringifyV v).length
  | .str s => by simp [sizeV, stringifyV]
  | .arr a => by
    have := sizeL_le_length a
    simp only [sizeV, stringifyV, List.length_cons, List.length_append]
    omega
  | .obj o => by
    have := sizeO_le_length o
    simp only [sizeV, stringifyV, List.length_cons, List.length_append]
    omega

theorem sizeL_le_length : ∀ a : JvList, sizeL a ≤ (stringifyL a).length + 1
  | .nil => by simp [sizeL]
  | .cons v .nil => by
    have := sizeV_le_length v
    simp only [sizeL, stringifyL]
    omega
  | .cons v (.cons w tl) => by
    have h1 := sizeV_le_length v
    have h2 := sizeL_le_length (.cons w tl)
    simp only [sizeL, stringifyL, List.length_append, List.length_cons] at h2 ⊢
    omega

theorem sizeO_le_length : ∀ o : JvObj, sizeO o ≤ (stringifyO o).length + 1
  | .nil => by simp [sizeO]
  | .cons k v .nil => by
    have := sizeV_le_length v
    simp only [sizeO, stringifyO, List.length_cons, List.length_append]
    omega
  | .cons k v (.cons k' w tl) => by
    have h1 := sizeV_le_length v
    have h2 := sizeO_le_length (.cons k' w tl)
    simp only [sizeO, stringifyO, List.length_append, List.length_cons] at h2 ⊢
    omega
end

/-- Parsing inverts serialization. -/
theorem parseJson_stringify (v : Jv) : parseJson (stringifyV v) = some v := by
  have h := parseVal_stringify v ((stringifyV v).length + 1) []
    (by have := sizeV_le_length v; omega)
  rw [List.append_nil] at h
  unfold parseJson
  rw [h]

/-! ## Basic facts about the pipeline -/

theorem advancedResults_eq {Doc : Type} (pop : Option (List Char)) (rq : JvObj)
    (m : Model Doc) (env : Envelope Doc) (tr : List Effect)
    (h : advancedResults pop rq m = some (env, tr)) :
    ∃ plan, planOf pop rq = some plan ∧
      env = { success := true, count := (m.exec plan).length,
              pagination := paginationOf (effPage rq) (effLimit rq) m.docs.length,
              data := m.exec plan } ∧
      tr = [Effect.countDocs, Effect.execQuery plan] := by
  unfold advancedResults at h
  cases hp : planOf pop rq with
  | none => rw [hp] at h; exact absurd h (by simp)
  | some plan =>
    rw [hp] at h
    refine ⟨plan, rfl, ?_, ?_⟩
    · exact congrArg Prod.fst (Option.some.inj h).symm
    · exact congrArg Prod.snd (Option.some.inj h).symm

/-- C2 — `next` present iff `endIndex < total`; `prev` present iff
`startIndex > 0`, with `endIndex = page*limit`, `startIndex = (page-1)*limit`,
`total` the collection count. -/
theorem next_prev_presence {Doc : Type} (pop : Option (List Char)) (rq : JvObj)
    (m : Model Doc) (env : Envelope Doc) (tr : List Effect)
    (h : advancedResults pop rq m = some (env, tr)) :
    (env.pagination.next.isSome ↔ effPage rq * effLimit rq < (m.docs.length : Int)) ∧
    (env.pagination.prev.isSome ↔ (effPage rq - 1) * effLimit rq > 0) := by
  obtain ⟨plan, -, henv, -⟩ := advancedResults_eq pop rq m env tr h
  subst henv
  constructor
  · simp only [paginationOf]
    split <;> simp_all
  · simp only [paginationOf]
    split <;> simp_all

theorem next_prev_presence_witness :
    (((⟨true, 0, ⟨some ⟨2, 10⟩, none⟩, []⟩ : Envelope Unit).pagination.next.isSome ↔
        effPage JvObj.nil * effLimit JvObj.nil <
          (((⟨List.replicate 11 (), fun _ => []⟩ : Model Unit)).docs.length : Int)) ∧
     ((⟨true, 0, ⟨some ⟨2, 10⟩, none⟩, []⟩ : Envelope Unit).pagination.prev.isSome ↔
        (effPage JvObj.nil - 1) * effLimit JvObj.nil > 0)) :=
  next_prev_presence none JvObj.nil ⟨List.replicate 11 (), fun _ => []⟩ _
    [Effect.countDocs, Effect.execQuery ⟨Jv.obj JvObj.nil, none, defaultSort, 0, 10, none⟩]
    (by decide)

/-- C10 — a `next` link, when present, is `{page+1, limit}`; a `prev`
link, when present, is `{page-1, limit}`; both carry the request's limit. -/
theorem link_contents {Doc : Type} (pop : Option (List Char)) (rq : JvObj)
    (m : Model Doc) (env : Envelope Doc) (tr : List Effect)
    (h : advancedResults pop rq m = some (env, tr)) :
    env.pagination.next = (if effPage rq * effLimit rq < (m.docs.length : Int)
      then some ⟨effPage rq + 1, effLimit rq⟩ else none) ∧
    env.pagination.prev = (if (effPage rq - 1) * effLimit rq > 0
      then some ⟨effPage rq - 1, effLimit rq⟩ else none) := by
  obtain ⟨plan, -, henv, -⟩ := advancedResults_eq pop rq m env tr h
  subst henv
  exact ⟨rfl, rfl⟩

theorem link_contents_witness :
    ((⟨true, 0, ⟨some ⟨2, 10⟩, none⟩, []⟩ : Envelope Unit).pagination.next =
      (if effPage JvObj.nil * effLimit JvObj.nil <
          (((⟨List.replicate 11 (), fun _ => []⟩ : Model Unit)).docs.length : Int)
        then some ⟨effPage JvObj.nil + 1, effLimit JvObj.nil⟩ else none)) ∧
    ((⟨true, 0, ⟨some ⟨2, 10⟩, none⟩, []⟩ : Envelope Unit).pagination.prev =
      (if (effPage JvObj.nil - 1) * effLimit JvObj.nil > 0
        then some ⟨effPage JvObj.nil - 1, effLimit JvObj.nil⟩ else none)) :=
  link_contents none JvObj.nil ⟨List.replicate 11 (), fun _ => []⟩ _
    [Effect.countDocs, Effect.execQuery ⟨Jv.obj JvObj.nil, none, defaultSort, 0, 10, none⟩]
    (by decide)

/-- C8 — the envelope's `count` is the length of the returned page
(`results.length`), not a total match count. -/
theorem count_is_page_length {Doc : Type} (pop : Option (List Char)) (rq : JvObj)
    (m : Model Doc) (env : Envelope Doc) (tr : List Effect)
    (h : advancedResults pop rq m = some (env, tr)) :
    env.count = env.data.length := by
  obtain ⟨plan, -, henv, -⟩ := advancedResults_eq pop rq m env tr h
  subst henv
  rfl

theorem count_is_page_length_witness :
    (⟨true, 2, ⟨some ⟨2, 10⟩, none⟩, [(), ()]⟩ : Envelope Unit).count =
      (⟨true, 2, ⟨some ⟨2, 10⟩, none⟩, [(), ()]⟩ : Envelope Unit).data.length :=
  count_is_page_length none JvObj.nil ⟨List.replicate 11 (), fun _ => [(), ()]⟩ _
    [Effect.countDocs, Effect.execQuery ⟨Jv.obj JvObj.nil, none, defaultSort, 0, 10, none⟩]
    (by decide)

/-- C4 — the `total` feeding the pagination metadata is the unfiltered
collection count: two stores of equal size produce identical pagination for
the same request even if their query engines return entirely different
(e.g. differently filtered) pages, and `next` is governed by the whole
collection's size. -/
theorem total_is_unfiltered_count {Doc : Type} (pop : Option (List Char)) (rq : JvObj)
    (m m' : Model Doc) (env env' : Envelope Doc) (tr tr' : List Effect)
    (h : advancedResults pop rq m = some (env, tr))
    (h' : advancedResults pop rq m' = some (env', tr'))
    (hlen : m.docs.length = m'.docs.length) :
    env.pagination = env'.pagination ∧
    (env.pagination.next.isSome ↔ effPage rq * effLimit rq < (m.docs.length : Int)) := by
  obtain ⟨plan, -, henv, -⟩ := advancedResults_eq pop rq m env tr h
  obtain ⟨plan', -, henv', -⟩ := advancedResults_eq pop rq m' env' tr' h'
  subst henv henv'
  refine ⟨by rw [hlen], ?_⟩
  simp only [paginationOf]
  split <;> simp_all

theorem total_is_unfiltered_count_witness :
    ((⟨true, 0, ⟨some ⟨2, 10⟩, none⟩, []⟩ : Envelope Unit).pagination =
      (⟨true, 3, ⟨some ⟨2, 10⟩, none⟩, [(), (), ()]⟩ : Envelope Unit).pagination) ∧
    ((⟨true, 0, ⟨some ⟨2, 10⟩, none⟩, []⟩ : Envelope Unit).pagination.next.isSome ↔
      effPage JvObj.nil * effLimit JvObj.nil <
        (((⟨List.replicate 11 (), fun _ => []⟩ : Model Unit)).docs.length : Int)) :=
  total_is_unfiltered_count none JvObj.nil
    ⟨List.replicate 11 (), fun _ => []⟩ ⟨List.replicate 11 (), fun _ => [(), (), ()]⟩ _ _
    [Effect.countDocs, Effect.execQuery ⟨Jv.obj JvObj.nil, none, defaultSort, 0, 10, none⟩]
    [Effect.countDocs, Effect.execQuery ⟨Jv.obj JvObj.nil, none, defaultSort, 0, 10, none⟩]
    (by decide) (by decide) (by decide)

/-- C3 counterexample — `?page=-1` parses to `-1`, which is truthy in JS,
so the effective page is `-1`: the invariant `page ≥ 1` fails. -/
theorem page_negative_counterexample :
    effPage (JvObj.cons pageKey (Jv.str ['-', '1']) JvObj.nil) = -1 ∧
    ¬(1 ≤ effPage (JvObj.cons pageKey (Jv.str ['-', '1']) JvObj.nil)) := by
  decide

/-- C3 (amended) — absent or malformed (`NaN`) `page`/`limit` silently
default to `1`/`10`, and a parsed `0` is falsy so it also defaults; hence the
effective values are ≥ 1 whenever the raw parameter does not parse to a
negative integer.  A parameter parsing to a negative integer is used as-is. -/
theorem page_limit_defaulting (rq : JvObj) :
    (parseIntParam rq pageKey = none → effPage rq = 1) ∧
    (parseIntParam rq limitKey = none → effLimit rq = 10) ∧
    (parseIntParam rq pageKey = some 0 → effPage rq = 1) ∧
    (parseIntParam rq limitKey = some 0 → effLimit rq = 10) ∧
    (∀ n : Int, parseIntParam rq pageKey = some n → n ≠ 0 → effPage rq = n) ∧
    (∀ n : Int, parseIntParam rq limitKey = some n → n ≠ 0 → effLimit rq = n) ∧
    ((∀ n : Int, parseIntParam rq pageKey = some n → 0 ≤ n) → 1 ≤ effPage rq) ∧
    ((∀ n : Int, parseIntParam rq limitKey = some n → 0 ≤ n) → 1 ≤ effLimit rq) := by
  have hp : ∀ (x : Option Int) (d : Int), 1 ≤ d →
      (x = none → jsOrDefault x d = d) ∧
      (x = some 0 → jsOrDefault x d = d) ∧
      (∀ n : Int, x = some n → n ≠ 0 → jsOrDefault x d = n) ∧
      ((∀ n : Int, x = some n → 0 ≤ n) → 1 ≤ jsOrDefault x d) := by
    intro x d hd
    rcases x with _ | n
    · exact ⟨fun _ => rfl, by simp, by simp, fun _ => hd⟩
    · refine ⟨by simp, ?_, ?_, ?_⟩
      · intro h
        cases h
        simp [jsOrDefault]
      · intro k hk h0
        cases hk
        simp [jsOrDefault, h0]
      · intro hnn
        have h0 : 0 ≤ n := hnn n rfl
        by_cases hz : n = 0
        · subst hz
          simpa [jsOrDefault] using hd
        · simp only [jsOrDefault, if_neg hz]
          omega
  obtain ⟨a1, a2, a3, a4⟩ := hp (parseIntParam rq pageKey) 1 le_rfl
  obtain ⟨b1, b2, b3, b4⟩ := hp (parseIntParam rq limitKey) 10 (by norm_num)
  exact ⟨a1, b1, a2, b2, a3, b3, a4, b4⟩

theorem page_limit_defaulting_witness :
    effPage (JvObj.cons pageKey (Jv.str ['0'])
      (JvObj.cons limitKey (Jv.str ['a', 'b', 'c']) JvObj.nil)) = 1 ∧
    effLimit (JvObj.cons pageKey (Jv.str ['0'])
      (JvObj.cons limitKey (Jv.str ['a', 'b', 'c']) JvObj.nil)) = 10 :=
  ⟨(page_limit_defaulting (JvObj.cons pageKey (Jv.str ['0'])
      (JvObj.cons limitKey (Jv.str ['a', 'b', 'c']) JvObj.nil))).2.2.1 (by decide),
   (page_limit_defaulting (JvObj.cons pageKey (Jv.str ['0'])
      (JvObj.cons limitKey (Jv.str ['a', 'b', 'c']) JvObj.nil))).2.1 (by decide)⟩

/-- C6 counterexample — a store of 11 documents whose query engine
returns no documents (the filter matches nothing): the envelope has
`data = []` and `count = 0`, yet the pagination metadata carries
`next = {page 2, limit 10}`, because `total` is the unfiltered count. -/
theorem empty_result_counterexample :
    ((advancedResults none JvObj.nil
        (⟨List.replicate 11 (), fun _ => []⟩ : Model Unit)).map
      (fun p => (p.1.data, p.1.count, p.1.pagination.next))) =
    some ([], 0, some ⟨2, 10⟩) := by
  decide

/-- C6 (amended) — an invocation whose data query returns no entities
still yields `success = true`, `data = []`, `count = 0`, but its pagination
links are computed from the unfiltered collection count and may be present:
`next` iff `page*limit < total`, `prev` iff `(page-1)*limit > 0`. -/
theorem empty_result_envelope {Doc : Type} (pop : Option (List Char)) (rq : JvObj)
    (m : Model Doc) (env : Envelope Doc) (tr : List Effect)
    (h : advancedResults pop rq m = some (env, tr)) (hdata : env.data = []) :
    env.success = true ∧ env.count = 0 ∧
    env.pagination = paginationOf (effPage rq) (effLimit rq) m.docs.length := by
  obtain ⟨plan, -, henv, -⟩ := advancedResults_eq pop rq m env tr h
  subst henv
  simp_all

theorem empty_result_envelope_witness :
    (⟨true, 0, ⟨some ⟨2, 10⟩, none⟩, []⟩ : Envelope Unit).success = true ∧
    (⟨true, 0, ⟨some ⟨2, 10⟩, none⟩, []⟩ : Envelope Unit).count = 0 ∧
    (⟨true, 0, ⟨some ⟨2, 10⟩, none⟩, []⟩ : Envelope Unit).pagination =
      paginationOf (effPage JvObj.nil) (effLimit JvObj.nil)
        ((⟨List.replicate 11 (), fun _ => []⟩ : Model Unit)).docs.length :=
  empty_result_envelope none JvObj.nil ⟨List.replicate 11 (), fun _ => []⟩ _
    [Effect.countDocs, Effect.execQuery ⟨Jv.obj JvObj.nil, none, defaultSort, 0, 10, none⟩]
    (by decide) (by decide)

/-- C9 — the reserved keys are deleted from the spread copy only, so the
caller's `req.query` is unchanged after the call (reserved keys still
readable), and the externally visible effects are exactly one count query
followed by one data query. -/
theorem no_mutation_two_queries {Doc : Type} (pop : Option (List Char)) (rq : JvObj)
    (m : Model Doc) (env : Envelope Doc) (tr : List Effect)
    (h : advancedResults pop rq m = some (env, tr)) :
    reqQueryAfterCall rq = rq ∧
    jvLookup (reqQueryAfterCall rq) selectKey = jvLookup rq selectKey ∧
    jvLookup (reqQueryAfterCall rq) sortKey = jvLookup rq sortKey ∧
    jvLookup (reqQueryAfterCall rq) pageKey = jvLookup rq pageKey ∧
    jvLookup (reqQueryAfterCall rq) limitKey = jvLookup rq limitKey ∧
    ∃ plan, planOf pop rq = some plan ∧
      tr = [Effect.countDocs, Effect.execQuery plan] := by
  obtain ⟨plan, hplan, -, htr⟩ := advancedResults_eq pop rq m env tr h
  exact ⟨rfl, rfl, rfl, rfl, rfl, plan, hplan, htr⟩

theorem no_mutation_two_queries_witness :
    reqQueryAfterCall (JvObj.cons pageKey (Jv.str ['2']) JvObj.nil) =
      JvObj.cons pageKey (Jv.str ['2']) JvObj.nil ∧
    jvLookup (reqQueryAfterCall (JvObj.cons pageKey (Jv.str ['2']) JvObj.nil)) selectKey =
      jvLookup (JvObj.cons pageKey (Jv.str ['2']) JvObj.nil) selectKey ∧
    jvLookup (reqQueryAfterCall (JvObj.cons pageKey (Jv.str ['2']) JvObj.nil)) sortKey =
      jvLookup (JvObj.cons pageKey (Jv.str ['2']) JvObj.nil) sortKey ∧
    jvLookup (reqQueryAfterCall (JvObj.cons pageKey (Jv.str ['2']) JvObj.nil)) pageKey =
      jvLookup (JvObj.cons pageKey (Jv.str ['2']) JvObj.nil) pageKey ∧
    jvLookup (reqQueryAfterCall (JvObj.cons pageKey (Jv.str ['2']) JvObj.nil)) limitKey =
      jvLookup (JvObj.cons pageKey (Jv.str ['2']) JvObj.nil) limitKey ∧
    ∃ plan, planOf none (JvObj.cons pageKey (Jv.str ['2']) JvObj.nil) = some plan ∧
      [Effect.countDocs,
        Effect.execQuery ⟨Jv.obj JvObj.nil, none, defaultSort, 10, 10, none⟩] =
        [Effect.countDocs, Effect.execQuery plan] :=
  no_mutation_two_queries none (JvObj.cons pageKey (Jv.str ['2']) JvObj.nil)
    ⟨List.replicate 11 (), fun _ => []⟩
    ⟨true, 0, ⟨none, some ⟨1, 10⟩⟩, []⟩
    [Effect.countDocs, Effect.execQuery ⟨Jv.obj JvObj.nil, none, defaultSort, 10, 10, none⟩]
    (by decide)

end DevCamper

namespace DevCamper

/-! ## Claims about the operator-token rewrite -/

/-- C7 — a filter mapping in which no operator token occurs (no key or
string value contains `gt`, `gte`, `lt`, `lte` or `in` as a substring)
round-trips: serializing, rewriting, and deserializing returns exactly the
original mapping as the filter predicate. -/
theorem roundtrip_no_tokens (q : JvObj) (h : noTokSubO q = true) :
    rewriteFilter q = some (Jv.obj q) := by
  have h2 : noTokO q = true := noTokSub_noTokO q h
  unfold rewriteFilter
  rw [noTok_stringifyV (.obj q) (by simpa [noTokV] using h2), parseJson_stringify]

theorem roundtrip_no_tokens_witness :
    rewriteFilter (JvObj.cons ['n', 'a', 'm', 'e'] (Jv.str ['a', 'l', 'p', 'h', 'a'])
        (JvObj.cons ['c', 'o', 's', 't'] (Jv.str ['1', '0', '0']) JvObj.nil)) =
      some (Jv.obj (JvObj.cons ['n', 'a', 'm', 'e'] (Jv.str ['a', 'l', 'p', 'h', 'a'])
        (JvObj.cons ['c', 'o', 's', 't'] (Jv.str ['1', '0', '0']) JvObj.nil))) :=
  roundtrip_no_tokens
    (JvObj.cons ['n', 'a', 'm', 'e'] (Jv.str ['a', 'l', 'p', 'h', 'a'])
      (JvObj.cons ['c', 'o', 's', 't'] (Jv.str ['1', '0', '0']) JvObj.nil))
    (by decide)

/-- C1 counterexample — the filter `{name: "lost in space"}` contains the
token `in` as a whole word inside a string *value*; the rewrite still tags it
(`/\b(gt|gte|lt|lte|in)\b/g` runs over the whole serialized text), so the
resulting filter predicate holds the corrupted value `"lost $in space"`, not
the original string. -/
theorem value_rewrite_counterexample :
    rewriteFilter (JvObj.cons ['n', 'a', 'm', 'e']
        (Jv.str ['l', 'o', 's', 't', ' ', 'i', 'n', ' ', 's', 'p', 'a', 'c', 'e'])
        JvObj.nil) =
      some (Jv.obj (JvObj.cons ['n', 'a', 'm', 'e']
        (Jv.str ['l', 'o', 's', 't', ' ', '$', 'i', 'n', ' ', 's', 'p', 'a', 'c', 'e'])
        JvObj.nil)) ∧
    Jv.str ['l', 'o', 's', 't', ' ', '$', 'i', 'n', ' ', 's', 'p', 'a', 'c', 'e'] ≠
      Jv.str ['l', 'o', 's', 't', ' ', 'i', 'n', ' ', 's', 'p', 'a', 'c', 'e'] := by
  decide

/-- C1 (amended) — the rewrite tags `\b`-delimited operator tokens
wherever they occur in the serialized filter candidates, in object keys and
string values alike: for mappings whose keys and string values need no JSON
escaping, the resulting filter predicate is the original mapping with
`replaceTokens` applied to every key and every string value.  In particular a
string value containing an operator token as a whole word is altered, not
returned unchanged. -/
theorem rewrite_tags_keys_and_values (q : JvObj) (h : plainO q = true) :
    rewriteFilter q = some (Jv.obj (mapStrO replaceTokens q)) := by
  unfold rewriteFilter
  rw [plain_stringifyV (.obj q) (by simpa [plainV] using h)]
  exact parseJson_stringify (mapStrV replaceTokens (.obj q))

theorem rewrite_tags_keys_and_values_witness :
    rewriteFilter (JvObj.cons ['c', 'o', 's', 't']
        (Jv.obj (JvObj.cons ['l', 't', 'e'] (Jv.str ['1', '0', '0']) JvObj.nil))
        (JvObj.cons ['n', 'a', 'm', 'e']
          (Jv.str ['l', 'o', 's', 't', ' ', 'i', 'n', ' ', 's', 'p', 'a', 'c', 'e'])
          JvObj.nil)) =
      some (Jv.obj (mapStrO replaceTokens (JvObj.cons ['c', 'o', 's', 't']
        (Jv.obj (JvObj.cons ['l', 't', 'e'] (Jv.str ['1', '0', '0']) JvObj.nil))
        (JvObj.cons ['n', 'a', 'm', 'e']
          (Jv.str ['l', 'o', 's', 't', ' ', 'i', 'n', ' ', 's', 'p', 'a', 'c', 'e'])
          JvObj.nil)))) :=
  rewrite_tags_keys_and_values
    (JvObj.cons ['c', 'o', 's', 't']
      (Jv.obj (JvObj.cons ['l', 't', 'e'] (Jv.str ['1', '0', '0']) JvObj.nil))
      (JvObj.cons ['n', 'a', 'm', 'e']
        (Jv.str ['l', 'o', 's', 't', ' ', 'i', 'n', ' ', 's', 'p', 'a', 'c', 'e'])
        JvObj.nil))
    (by decide)

end DevCamper
